import Mathlib

/-!
Shallow embedding of `QDataWidget.py` (class `QDataField`, class `QDataWidget`).

Modelling conventions:

* Python attribute dictionaries (`obj.__dict__`, `cls._fields`, the signal
  attributes installed on the class) are association lists with Python-dict
  semantics: lookup finds the first matching key, assignment updates an
  existing key in place (keeping its position) and appends a fresh key.
* Python values stored in fields are modelled by the inductive `Value`:
  `Value.none` is Python `None`, `Value.str`/`Value.num` model the string and
  numeric payloads the repository uses, and `Value.slot attr` models the
  `functools` bound callable `partial(self._set_field, attr_name = attr)`
  that `QDataWidget.__init__` stores into `obj.__dict__` under the slot name.
  Python `==` on these values is modelled by decidable equality.
* Signal emission is modelled by recording an `Emission` (signal attribute
  name plus payload) in the order the `emit` calls happen; emission is
  synchronous, i.e. it happens at its position in the sequential execution.
* The model covers classes whose bases carry no `_fields` attribute, i.e.
  direct subclasses of `QDataWidget`, which is the only shape the repository
  creates: `__set_name__` then starts from an absent registry.
-/

/-- Python values as used by the repository: `None`, strings, numbers, and the
bound setter callables that `QDataWidget.__init__` stores on the instance. -/
inductive Value : Type where
  | none : Value
  | str : String → Value
  | num : Int → Value
  | slot : String → Value
deriving DecidableEq, Repr

/-- Python-dict lookup on an association list: first matching key. -/
def alookup {α : Type} : List (String × α) → String → Option α
  | [], _ => Option.none
  | (k', v) :: rest, k => if k' = k then some v else alookup rest k

/-- Python-dict assignment: update an existing key in place (keeping its
position), append a fresh key at the end. -/
def ainsert {α : Type} : List (String × α) → String → α → List (String × α)
  | [], k, v => [(k, v)]
  | (k', v') :: rest, k, v =>
    if k' = k then (k, v) :: rest else (k', v') :: ainsert rest k v

/-- Python `str.capitalize` restricted to ASCII identifiers: uppercase the
first character, lowercase all remaining characters. -/
def pyCapitalize (s : String) : String :=
  match s.data with
  | [] => ""
  | c :: cs => String.mk (c.toUpper :: cs.map Char.toLower)

/-- Instance attribute dictionary `obj.__dict__`. -/
abbrev Store := List (String × Value)

/-- One call of `Signal.emit`: the name of the signal attribute it goes out
on and the payload value. -/
structure Emission : Type where
  signal : String
  value : Value
deriving DecidableEq, Repr

/-- Constructor arguments of `QDataField.__init__`: the declared data type
(kept as a tag, it only flows into the created signal), the optional default
and the optional min/max bounds (`Value.none` models Python `None`). -/
structure QDataFieldSpec : Type where
  data_type : String
  default_value : Value := Value.none
  min : Value := Value.none
  max : Value := Value.none
deriving DecidableEq, Repr

/-- A `QDataField` descriptor after `__set_name__` ran: the constructor
arguments plus the `name` and `signal_name` instance variables that
`__set_name__` assigns. -/
structure QDataField : Type where
  data_type : String
  default_value : Value
  min : Value
  max : Value
  name : String
  signal_name : String
deriving DecidableEq, Repr

/-- The descriptor object for declared name `n`, as `__set_name__` leaves it:
`self.name = n`, `self.signal_name = n ++ "Changed"`. -/
def namedField (n : String) (spec : QDataFieldSpec) : QDataField :=
  { data_type := spec.data_type
    default_value := spec.default_value
    min := spec.min
    max := spec.max
    name := n
    signal_name := n ++ "Changed" }

/-- Class-level state touched by `QDataField.__set_name__`: the `_fields`
registry (`Option` distinguishes an absent attribute from an empty dict, for
the `hasattr` check) and the signal attributes installed on the class, each
carrying its declared data type. -/
structure ClassState : Type where
  fields : Option (List (String × QDataField))
  signals : List (String × String)
deriving DecidableEq, Repr

/-- `QDataField.__set_name__(cls, name)`: create `cls._fields` if absent,
register the descriptor under its declared name, and install the signal
`name + 'Changed'` of the declared data type on the class. -/
def set_name (cls : ClassState) (spec : QDataFieldSpec) (n : String) : ClassState :=
  let f := namedField n spec
  let reg := match cls.fields with
    | Option.none => []
    | some r => r
  { fields := some (ainsert reg n f)
    signals := ainsert cls.signals f.signal_name f.data_type }

/-- Class creation for a direct subclass of `QDataWidget`: Python runs
`__set_name__` once per declared field, in declaration order, starting from a
class with no `_fields` attribute. -/
def makeClass (decls : List (String × QDataFieldSpec)) : ClassState :=
  decls.foldl (fun cls d => set_name cls d.2 d.1) { fields := Option.none, signals := [] }

/-- The `_fields` registry a class resolves (empty when no field was ever
declared). -/
def ClassState.registry (cls : ClassState) : List (String × QDataField) :=
  match cls.fields with
  | Option.none => []
  | some r => r

/-- `QDataField.__get__`: return `obj.__dict__[self.name]`; `Option.none`
models the `KeyError` raised on an uninitialized field. -/
def QDataField.fget (self : QDataField) (objDict : Store) : Option Value :=
  alookup objDict self.name

/-- One atomic step of `QDataField.__set__`: the dictionary write
`obj.__dict__[self.name] = value` or the signal emission
`getattr(obj, self.signal_name).emit(value)`. -/
inductive SetStep : Type where
  | write : String → Value → SetStep
  | emit : String → Value → SetStep
deriving DecidableEq, Repr

/-- The sequence of atomic steps `QDataField.__set__` performs: nothing when
the equality short-circuit fires, otherwise the dictionary write followed by
the signal emission. -/
def QDataField.fsetTrace (self : QDataField) (objDict : Store) (value : Value) :
    List SetStep :=
  match alookup objDict self.name with
  | some cur =>
    if value = cur then []
    else [SetStep.write self.name value, SetStep.emit self.signal_name value]
  | Option.none => [SetStep.write self.name value, SetStep.emit self.signal_name value]

/-- Effect of one atomic step on `obj.__dict__` (emission does not touch it). -/
def applyStep (objDict : Store) : SetStep → Store
  | SetStep.write n v => ainsert objDict n v
  | SetStep.emit _ _ => objDict

/-- Run a step sequence on a dictionary. -/
def runSteps (objDict : Store) (steps : List SetStep) : Store :=
  steps.foldl applyStep objDict

/-- The emissions contained in a step sequence, in order. -/
def emissionsOf (steps : List SetStep) : List Emission :=
  steps.filterMap fun s =>
    match s with
    | SetStep.write _ _ => Option.none
    | SetStep.emit sig v => some { signal := sig, value := v }

/-- `QDataField.__set__`: no-op when the field is present with an equal value,
otherwise store the value and emit the change signal with it. Returns the
updated `obj.__dict__` and the emissions, in order. -/
def QDataField.fset (self : QDataField) (objDict : Store) (value : Value) :
    Store × List Emission :=
  match alookup objDict self.name with
  | some cur =>
    if value = cur then (objDict, [])
    else (ainsert objDict self.name value, [{ signal := self.signal_name, value := value }])
  | Option.none =>
    (ainsert objDict self.name value, [{ signal := self.signal_name, value := value }])

/-- The kwarg-splitting loop at the top of `QDataWidget.__init__`: iterate
over the keyword arguments; an argument whose name is in `self._fields` is
moved into `field_init`, any other argument stays in `kwargs` (and is later
passed to `super().__init__`). Both dictionaries keep the iteration order. -/
def splitKwargs (reg : List (String × QDataField)) :
    List (String × Value) → List (String × Value) × List (String × Value)
  | [] => ([], [])
  | (kw, v) :: rest =>
    let (fi, kp) := splitKwargs reg rest
    if (alookup reg kw).isSome then ((kw, v) :: fi, kp) else (fi, (kw, v) :: kp)

/-- The initializer loop of `QDataWidget.__init__`:
`for kw, value in field_init.items(): self._fields[kw].__set__(self, value)`.
Each step goes through the ordinary write path; emissions are concatenated in
order. The `Option.none` branch is unreachable because `field_init` only ever
holds keys of `self._fields`. -/
def applyInits (reg : List (String × QDataField)) :
    List (String × Value) → Store → Store × List Emission
  | [], objDict => (objDict, [])
  | (kw, v) :: rest, objDict =>
    match alookup reg kw with
    | some f =>
      let (objDict', es) := f.fset objDict v
      let (objDict'', es') := applyInits reg rest objDict'
      (objDict'', es ++ es')
    | Option.none => applyInits reg rest objDict

/-- Slot name synthesized for a field: `'set' + kw.capitalize()`. -/
def slotName (kw : String) : String :=
  "set" ++ pyCapitalize kw

/-- The final loop of `QDataWidget.__init__`: for each registered field, in
registry order, materialize the default directly into `self.__dict__` when the
field has no value yet and declares a non-`None` default (bypassing `__set__`,
so no emission), then store the synthesized setter under the slot name with
`setattr(self, slot_name, ...)`. Both writes land in the same `obj.__dict__`.
The model writes the slot directly into the dictionary, which matches Python
as long as no slot name collides with a declared field name (a colliding
`setattr` would route through that field's descriptor). -/
def applyDefaultsAndSlots (reg : List (String × QDataField)) (objDict : Store) : Store :=
  reg.foldl
    (fun st p =>
      let st :=
        if alookup st p.1 = Option.none ∧ p.2.default_value ≠ Value.none then
          ainsert st p.1 p.2.default_value
        else st
      ainsert st (slotName p.1) (Value.slot p.1))
    objDict

/-- Result of `QDataWidget.__init__` on a fresh instance: the keyword
arguments forwarded to `super().__init__`, the final `obj.__dict__` (field
values and synthesized slots) and the change-signal emissions that happened
during construction, in order. -/
structure InitResult : Type where
  forwarded : List (String × Value)
  store : Store
  emissions : List Emission
deriving DecidableEq, Repr

/-- `QDataWidget.__init__(**kwargs)` on a fresh instance (empty
`obj.__dict__`): split the keyword arguments, forward the non-field ones to
the base constructor, apply field initializers through `__set__`, then apply
defaults and synthesize slots. -/
def QDataWidget.init (cls : ClassState) (kwargs : List (String × Value)) : InitResult :=
  let (field_init, kwargs') := splitKwargs cls.registry kwargs
  let (st, es) := applyInits cls.registry field_init []
  let st' := applyDefaultsAndSlots cls.registry st
  { forwarded := kwargs', store := st', emissions := es }

/-- `QDataWidget._set_field(value, attr_name)`:
`self._fields[attr_name].__set__(self, value)`. The `Option.none` branch is
unreachable for the attribute names baked into synthesized slots. -/
def QDataWidget.set_field (cls : ClassState) (objDict : Store) (value : Value)
    (attr_name : String) : Store × List Emission :=
  match alookup cls.registry attr_name with
  | some f => f.fset objDict value
  | Option.none => (objDict, [])

/-- Direct attribute assignment `obj.n = v` on a subclass declared by
`decls`: Python resolves the class attribute `n` to the descriptor created by
that declaration (as `__set_name__` left it) and calls its `__set__`. -/
def directAssign (decls : List (String × QDataFieldSpec)) (objDict : Store)
    (n : String) (v : Value) : Store × List Emission :=
  match decls.find? (fun d => d.1 = n) with
  | some d => (namedField n d.2).fset objDict v
  | Option.none => (objDict, [])

/-- The `Resistor` declaration shape from the repository's own test code
(float literals such as `0.05` are replaced by integer stand-ins, since the
model's numeric payloads are integers). -/
def resistorDecls : List (String × QDataFieldSpec) :=
  [("ref", { data_type := "str" }),
   ("resistance", { data_type := "float" }),
   ("tolerance", { data_type := "float", default_value := Value.num 5 }),
   ("kind", { data_type := "str", default_value := Value.str "metal film" })]

/-- The `Resistor` class state after class creation. -/
def resistorClass : ClassState :=
  makeClass resistorDecls

/-- The single-field class used to study the slot naming convention on a
field whose name has an interior capital. -/
def camelClass : ClassState :=
  makeClass [("maxValue", { data_type := "float" })]

theorem alookup_ainsert_self {α : Type} (l : List (String × α)) (k : String) (v : α) :
    alookup (ainsert l k v) k = some v := by
  induction l with
  | nil => simp [ainsert, alookup]
  | cons p rest ih =>
    by_cases h : p.1 = k
    · simp [ainsert, h, alookup]
    · simp [ainsert, h, alookup, ih]

theorem alookup_ainsert_ne {α : Type} (l : List (String × α)) (k k' : String) (v : α)
    (h : k ≠ k') : alookup (ainsert l k v) k' = alookup l k' := by
  induction l with
  | nil => simp [ainsert, alookup, h]
  | cons p rest ih =>
    by_cases hp : p.1 = k
    · simp [ainsert, hp, alookup, h]
    · simp [ainsert, hp, alookup, ih]

theorem ainsert_fresh {α : Type} (l : List (String × α)) (k : String) (v : α)
    (h : alookup l k = Option.none) : ainsert l k v = l ++ [(k, v)] := by
  induction l with
  | nil => simp [ainsert]
  | cons p rest ih =>
    by_cases hp : p.1 = k
    · simp [alookup, hp] at h
    · simp [alookup, hp] at h
      simp [ainsert, hp, ih h]

theorem alookup_append_of_none {α : Type} (l l' : List (String × α)) (k : String)
    (h : alookup l k = Option.none) : alookup (l ++ l') k = alookup l' k := by
  induction l with
  | nil => simp
  | cons p rest ih =>
    by_cases hp : p.1 = k
    · simp [alookup, hp] at h
    · simp [alookup, hp] at h ⊢
      exact ih h

theorem alookup_eq_none_of_not_mem {α : Type} (l : List (String × α)) (k : String)
    (h : k ∉ l.map Prod.fst) : alookup l k = Option.none := by
  induction l with
  | nil => rfl
  | cons p rest ih =>
    simp only [List.map_cons, List.mem_cons] at h
    push_neg at h
    have hp : ¬ p.1 = k := fun he => h.1 he.symm
    simp [alookup, hp, ih h.2]

theorem string_append_cancel_right (a b c : String) (h : a ++ c = b ++ c) : a = b := by
  have hd : a.data ++ c.data = b.data ++ c.data := by
    have := congrArg String.data h
    simpa [String.data_append] using this
  have hlen : a.data.length = b.data.length := by
    have h2 := congrArg List.length hd
    simp only [List.length_append] at h2
    omega
  rcases List.append_inj hd hlen with ⟨h1, _⟩
  exact String.ext h1

theorem changed_name_inj (a b : String) (h : a ++ "Changed" = b ++ "Changed") : a = b :=
  string_append_cancel_right a b "Changed" h

theorem set_name_eq (cls : ClassState) (spec : QDataFieldSpec) (n : String) :
    set_name cls spec n =
      { fields := some (ainsert cls.registry n (namedField n spec)),
        signals := ainsert cls.signals (n ++ "Changed") spec.data_type } := by
  rcases cls with ⟨fields, signals⟩
  cases fields <;> rfl

theorem foldl_set_name_spec (decls : List (String × QDataFieldSpec)) :
    ∀ (reg : List (String × QDataField)) (sigs : List (String × String)),
    (∀ d ∈ decls, alookup reg d.1 = Option.none) →
    (∀ d ∈ decls, alookup sigs (d.1 ++ "Changed") = Option.none) →
    (decls.map Prod.fst).Nodup →
    decls.foldl (fun cls d => set_name cls d.2 d.1) { fields := some reg, signals := sigs } =
      { fields := some (reg ++ decls.map fun d => (d.1, namedField d.1 d.2)),
        signals := sigs ++ decls.map fun d => (d.1 ++ "Changed", d.2.data_type) } := by
  induction decls with
  | nil => intro reg sigs _ _ _; simp
  | cons d rest ih =>
    intro reg sigs hreg hsig hnodup
    simp only [List.map_cons, List.nodup_cons] at hnodup
    have hregd : alookup reg d.1 = Option.none := hreg d (List.mem_cons_self d rest)
    have hsigd : alookup sigs (d.1 ++ "Changed") = Option.none :=
      hsig d (List.mem_cons_self d rest)
    have hstep : set_name { fields := some reg, signals := sigs } d.2 d.1 =
        { fields := some (reg ++ [(d.1, namedField d.1 d.2)]),
          signals := sigs ++ [(d.1 ++ "Changed", d.2.data_type)] } := by
      rw [set_name_eq]
      simp only [ClassState.registry]
      rw [ainsert_fresh _ _ _ hregd, ainsert_fresh _ _ _ hsigd]
    have hne : ∀ e ∈ rest, e.1 ≠ d.1 := by
      intro e he heq
      exact hnodup.1 (heq ▸ List.mem_map_of_mem Prod.fst he)
    have hreg' : ∀ e ∈ rest, alookup (reg ++ [(d.1, namedField d.1 d.2)]) e.1 = Option.none := by
      intro e he
      rw [alookup_append_of_none _ _ _ (hreg e (List.mem_cons_of_mem d he))]
      have hd : ¬ d.1 = e.1 := fun h => hne e he h.symm
      simp [alookup, hd]
    have hsig' : ∀ e ∈ rest,
        alookup (sigs ++ [(d.1 ++ "Changed", d.2.data_type)]) (e.1 ++ "Changed") =
          Option.none := by
      intro e he
      rw [alookup_append_of_none _ _ _ (hsig e (List.mem_cons_of_mem d he))]
      have : ¬ d.1 ++ "Changed" = e.1 ++ "Changed" :=
        fun h => hne e he (changed_name_inj d.1 e.1 h).symm
      simp [alookup, this]
    rw [List.foldl_cons, hstep, ih _ _ hreg' hsig' hnodup.2]
    simp

theorem makeClass_cons_eq (d : String × QDataFieldSpec) (rest : List (String × QDataFieldSpec))
    (hnodup : ((d :: rest).map Prod.fst).Nodup) :
    makeClass (d :: rest) =
      { fields := some ((d :: rest).map fun e => (e.1, namedField e.1 e.2)),
        signals := (d :: rest).map fun e => (e.1 ++ "Changed", e.2.data_type) } := by
  simp only [List.map_cons, List.nodup_cons] at hnodup
  have hne : ∀ e ∈ rest, e.1 ≠ d.1 := by
    intro e he heq
    exact hnodup.1 (heq ▸ List.mem_map_of_mem Prod.fst he)
  have hstep : set_name { fields := Option.none, signals := [] } d.2 d.1 =
      { fields := some [(d.1, namedField d.1 d.2)],
        signals := [(d.1 ++ "Changed", d.2.data_type)] } := by
    rw [set_name_eq]; rfl
  have hreg' : ∀ e ∈ rest, alookup [(d.1, namedField d.1 d.2)] e.1 = Option.none := by
    intro e he
    have hd : ¬ d.1 = e.1 := fun h => hne e he h.symm
    simp [alookup, hd]
  have hsig' : ∀ e ∈ rest,
      alookup [(d.1 ++ "Changed", d.2.data_type)] (e.1 ++ "Changed") = Option.none := by
    intro e he
    have : ¬ d.1 ++ "Changed" = e.1 ++ "Changed" :=
      fun h => hne e he (changed_name_inj d.1 e.1 h).symm
    simp [alookup, this]
  show List.foldl _ _ (d :: rest) = _
  rw [List.foldl_cons, hstep, foldl_set_name_spec rest _ _ hreg' hsig' hnodup.2]
  simp

theorem makeClass_registry (decls : List (String × QDataFieldSpec))
    (h : (decls.map Prod.fst).Nodup) :
    (makeClass decls).registry = decls.map fun d => (d.1, namedField d.1 d.2) := by
  cases decls with
  | nil => rfl
  | cons d rest => rw [makeClass_cons_eq d rest h]; rfl

theorem makeClass_signals (decls : List (String × QDataFieldSpec))
    (h : (decls.map Prod.fst).Nodup) :
    (makeClass decls).signals = decls.map fun d => (d.1 ++ "Changed", d.2.data_type) := by
  cases decls with
  | nil => rfl
  | cons d rest => rw [makeClass_cons_eq d rest h]

theorem alookup_map_decls (decls : List (String × QDataFieldSpec)) (kw : String)
    (f : QDataField)
    (h : alookup (decls.map fun d => (d.1, namedField d.1 d.2)) kw = some f) :
    f.name = kw ∧ f.signal_name = kw ++ "Changed" := by
  induction decls with
  | nil => simp [alookup] at h
  | cons d rest ih =>
    by_cases hd : d.1 = kw
    · simp only [List.map_cons, alookup, hd, if_pos] at h
      cases h
      exact ⟨hd.symm ▸ rfl, hd.symm ▸ rfl⟩
    · simp only [List.map_cons, alookup, hd, if_neg, if_false] at h
      exact ih h

theorem alookup_map_of_mem (decls : List (String × QDataFieldSpec)) (n : String)
    (spec : QDataFieldSpec) (hnodup : (decls.map Prod.fst).Nodup)
    (hmem : (n, spec) ∈ decls) :
    alookup (decls.map fun d => (d.1, namedField d.1 d.2)) n = some (namedField n spec) := by
  induction decls with
  | nil => cases hmem
  | cons d rest ih =>
    simp only [List.map_cons, List.nodup_cons] at hnodup
    rcases List.mem_cons.mp hmem with hhead | htail
    · subst hhead
      simp [alookup]
    · have hd : d.1 ≠ n := by
        intro h
        exact hnodup.1 (h ▸ List.mem_map_of_mem Prod.fst htail)
      simp only [List.map_cons, alookup, hd, if_false]
      exact ih hnodup.2 htail

theorem alookup_registry_of_mem (decls : List (String × QDataFieldSpec)) (n : String)
    (spec : QDataFieldSpec) (hnodup : (decls.map Prod.fst).Nodup)
    (hmem : (n, spec) ∈ decls) :
    alookup (makeClass decls).registry n = some (namedField n spec) := by
  rw [makeClass_registry decls hnodup]
  exact alookup_map_of_mem decls n spec hnodup hmem

theorem registry_names (decls : List (String × QDataFieldSpec)) (kw : String) (f : QDataField)
    (hnodup : (decls.map Prod.fst).Nodup)
    (h : alookup (makeClass decls).registry kw = some f) :
    f.name = kw ∧ f.signal_name = kw ++ "Changed" := by
  rw [makeClass_registry decls hnodup] at h
  exact alookup_map_decls decls kw f h

theorem find?_of_mem_nodup (decls : List (String × QDataFieldSpec)) (n : String)
    (spec : QDataFieldSpec) (hnodup : (decls.map Prod.fst).Nodup)
    (hmem : (n, spec) ∈ decls) :
    decls.find? (fun d => d.1 = n) = some (n, spec) := by
  induction decls with
  | nil => cases hmem
  | cons d rest ih =>
    simp only [List.map_cons, List.nodup_cons] at hnodup
    rcases List.mem_cons.mp hmem with hhead | htail
    · subst hhead
      simp [List.find?]
    · have hd : d.1 ≠ n := by
        intro h
        exact hnodup.1 (h ▸ List.mem_map_of_mem Prod.fst htail)
      rw [List.find?]
      simp only [hd, decide_False]
      exact ih hnodup.2 htail

theorem splitKwargs_eq (reg : List (String × QDataField)) (kwargs : List (String × Value)) :
    splitKwargs reg kwargs =
      (kwargs.filter (fun p => (alookup reg p.1).isSome),
       kwargs.filter (fun p => !(alookup reg p.1).isSome)) := by
  induction kwargs with
  | nil => rfl
  | cons p rest ih =>
    cases halt : alookup reg p.1 with
    | none => simp [splitKwargs, ih, List.filter_cons, halt]
    | some f => simp [splitKwargs, ih, List.filter_cons, halt]

theorem fset_stored (f : QDataField) (st : Store) (v : Value)
    (h : alookup st f.name = some v) : f.fset st v = (st, []) := by
  simp [QDataField.fset, h]

theorem fset_not_stored (f : QDataField) (st : Store) (v : Value)
    (h : alookup st f.name ≠ some v) :
    f.fset st v = (ainsert st f.name v, [{ signal := f.signal_name, value := v }]) := by
  cases halt : alookup st f.name with
  | none => simp [QDataField.fset, halt]
  | some cur =>
    have hv : ¬ v = cur := fun he => h (he ▸ halt)
    simp [QDataField.fset, halt, hv]

theorem fset_frame (f : QDataField) (st : Store) (v : Value) (n : String)
    (h : f.name ≠ n) : alookup (f.fset st v).1 n = alookup st n := by
  cases halt : alookup st f.name with
  | none => simp [QDataField.fset, halt, alookup_ainsert_ne _ _ _ _ h]
  | some cur =>
    by_cases hv : v = cur <;>
      simp [QDataField.fset, halt, hv, alookup_ainsert_ne _ _ _ _ h]

theorem applyInits_frame (reg : List (String × QDataField)) (n : String) :
    ∀ (fi : List (String × Value)) (st : Store),
    (∀ p ∈ fi, ∀ f, alookup reg p.1 = some f → f.name ≠ n) →
    alookup (applyInits reg fi st).1 n = alookup st n := by
  intro fi
  induction fi with
  | nil => intro st _; rfl
  | cons p rest ih =>
    intro st hp
    cases hreg : alookup reg p.1 with
    | none => simpa [applyInits, hreg] using ih st (fun q hq => hp q (List.mem_cons_of_mem p hq))
    | some f =>
      have hname : f.name ≠ n := hp p (List.mem_cons_self p rest) f hreg
      simp only [applyInits, hreg]
      have := ih (f.fset st p.2).1 (fun q hq => hp q (List.mem_cons_of_mem p hq))
      rw [this, fset_frame f st p.2 n hname]

theorem applyInits_spec (reg : List (String × QDataField)) :
    ∀ (fi : List (String × Value)) (st : Store),
    (∀ p ∈ fi, ∃ f, alookup reg p.1 = some f ∧ f.name = p.1 ∧
      f.signal_name = p.1 ++ "Changed") →
    (∀ p ∈ fi, alookup st p.1 = Option.none) →
    (fi.map Prod.fst).Nodup →
    applyInits reg fi st =
      (st ++ fi, fi.map fun p => { signal := p.1 ++ "Changed", value := p.2 }) := by
  intro fi
  induction fi with
  | nil => intro st _ _ _; simp [applyInits]
  | cons p rest ih =>
    intro st hreg hfresh hnodup
    simp only [List.map_cons, List.nodup_cons] at hnodup
    obtain ⟨f, hf, hname, hsig⟩ := hreg p (List.mem_cons_self p rest)
    have hst : alookup st f.name = Option.none := hname ▸ hfresh p (List.mem_cons_self p rest)
    have hset : f.fset st p.2 =
        (st ++ [(p.1, p.2)], [{ signal := p.1 ++ "Changed", value := p.2 }]) := by
      rw [fset_not_stored f st p.2 (by simp [hst]), ainsert_fresh _ _ _ hst, hname, hsig]
    have hne : ∀ e ∈ rest, e.1 ≠ p.1 := by
      intro e he heq
      exact hnodup.1 (heq ▸ List.mem_map_of_mem Prod.fst he)
    have hfresh' : ∀ e ∈ rest, alookup (st ++ [(p.1, p.2)]) e.1 = Option.none := by
      intro e he
      rw [alookup_append_of_none _ _ _ (hfresh e (List.mem_cons_of_mem p he))]
      have hd : ¬ p.1 = e.1 := fun h => hne e he h.symm
      simp [alookup, hd]
    have hrec := ih (st ++ [(p.1, p.2)])
      (fun q hq => hreg q (List.mem_cons_of_mem p hq)) hfresh' hnodup.2
    simp only [applyInits, hf, hset, hrec]
    simp

theorem ADS_cons (p : String × QDataField) (rest : List (String × QDataField)) (st : Store) :
    applyDefaultsAndSlots (p :: rest) st =
      applyDefaultsAndSlots rest
        (ainsert
          (if alookup st p.1 = Option.none ∧ p.2.default_value ≠ Value.none then
            ainsert st p.1 p.2.default_value
          else st)
          (slotName p.1) (Value.slot p.1)) := rfl

theorem ADS_frame (n : String) :
    ∀ (reg : List (String × QDataField)) (st : Store),
    (∀ p ∈ reg, p.1 ≠ n ∨ p.2.default_value = Value.none) →
    (∀ p ∈ reg, slotName p.1 ≠ n) →
    alookup (applyDefaultsAndSlots reg st) n = alookup st n := by
  intro reg
  induction reg with
  | nil => intro st _ _; rfl
  | cons p rest ih =>
    intro st hdef hslot
    obtain ⟨k, g⟩ := p
    have hs : slotName k ≠ n := hslot (k, g) (List.mem_cons_self _ _)
    rw [ADS_cons]
    have h1 : alookup (if alookup st k = Option.none ∧ g.default_value ≠ Value.none then
        ainsert st k g.default_value else st) n = alookup st n := by
      by_cases hc : alookup st k = Option.none ∧ g.default_value ≠ Value.none
      · rw [if_pos hc]
        rcases hdef (k, g) (List.mem_cons_self _ _) with hne | hnone
        · exact alookup_ainsert_ne _ _ _ _ hne
        · exact absurd hnone hc.2
      · rw [if_neg hc]
    rw [ih _ (fun q hq => hdef q (List.mem_cons_of_mem _ hq))
          (fun q hq => hslot q (List.mem_cons_of_mem _ hq)),
        alookup_ainsert_ne _ _ _ _ hs, h1]

theorem ADS_preserve (n : String) (v : Value) :
    ∀ (reg : List (String × QDataField)) (st : Store),
    alookup st n = some v →
    (∀ p ∈ reg, slotName p.1 ≠ n) →
    alookup (applyDefaultsAndSlots reg st) n = some v := by
  intro reg
  induction reg with
  | nil => intro st h _; exact h
  | cons p rest ih =>
    intro st hv hslot
    obtain ⟨k, g⟩ := p
    have hs : slotName k ≠ n := hslot (k, g) (List.mem_cons_self _ _)
    rw [ADS_cons]
    have h1 : alookup (if alookup st k = Option.none ∧ g.default_value ≠ Value.none then
        ainsert st k g.default_value else st) n = some v := by
      by_cases hc : alookup st k = Option.none ∧ g.default_value ≠ Value.none
      · rw [if_pos hc]
        have hne : k ≠ n := by
          intro h
          rw [h, hv] at hc
          exact Option.noConfusion hc.1
        rw [alookup_ainsert_ne _ _ _ _ hne]
        exact hv
      · rw [if_neg hc]
        exact hv
    exact ih _ (by rw [alookup_ainsert_ne _ _ _ _ hs]; exact h1)
      (fun q hq => hslot q (List.mem_cons_of_mem _ hq))

theorem ADS_slot :
    ∀ (reg : List (String × QDataField)) (st : Store) (kw : String),
    kw ∈ reg.map Prod.fst →
    (reg.map fun p => slotName p.1).Nodup →
    alookup (applyDefaultsAndSlots reg st) (slotName kw) = some (Value.slot kw) := by
  intro reg
  induction reg with
  | nil => intro st kw h _; cases h
  | cons p rest ih =>
    intro st kw hmem hnodup
    obtain ⟨k, g⟩ := p
    simp only [List.map_cons, List.nodup_cons] at hnodup
    rw [ADS_cons]
    by_cases hp : k = kw
    · subst hp
      have hrest : ∀ q ∈ rest, slotName q.1 ≠ slotName k := by
        intro q hq heq
        exact hnodup.1 (heq ▸ List.mem_map_of_mem (fun r => slotName r.1) hq)
      exact ADS_preserve (slotName k) (Value.slot k) rest _
        (alookup_ainsert_self _ _ _) hrest
    · have hmem' : kw ∈ rest.map Prod.fst := by
        simp only [List.map_cons, List.mem_cons] at hmem
        rcases hmem with h | h
        · exact absurd h.symm hp
        · exact h
      exact ih _ kw hmem' hnodup.2

theorem ADS_default (n : String) (f : QDataField) :
    ∀ (reg : List (String × QDataField)) (st : Store),
    (n, f) ∈ reg →
    (reg.map Prod.fst).Nodup →
    f.default_value ≠ Value.none →
    alookup st n = Option.none →
    (∀ p ∈ reg, slotName p.1 ≠ n) →
    alookup (applyDefaultsAndSlots reg st) n = some f.default_value := by
  intro reg
  induction reg with
  | nil => intro st h _ _ _ _; cases h
  | cons p rest ih =>
    intro st hmem hnodup hdef hfresh hslot
    obtain ⟨k, g⟩ := p
    simp only [List.map_cons, List.nodup_cons] at hnodup
    have hs : slotName k ≠ n := hslot (k, g) (List.mem_cons_self _ _)
    rw [ADS_cons]
    rcases List.mem_cons.mp hmem with hhead | htail
    · cases hhead
      rw [if_pos ⟨hfresh, hdef⟩]
      have hrest : ∀ q ∈ rest, slotName q.1 ≠ n :=
        fun q hq => hslot q (List.mem_cons_of_mem _ hq)
      refine ADS_preserve n f.default_value rest _ ?_ hrest
      rw [alookup_ainsert_ne _ _ _ _ hs, alookup_ainsert_self]
    · have hne : k ≠ n := by
        intro h
        exact hnodup.1 (h ▸ List.mem_map_of_mem Prod.fst htail)
      have h1 : alookup (if alookup st k = Option.none ∧ g.default_value ≠ Value.none then
          ainsert st k g.default_value else st) n = Option.none := by
        by_cases hc : alookup st k = Option.none ∧ g.default_value ≠ Value.none
        · rw [if_pos hc, alookup_ainsert_ne _ _ _ _ hne]
          exact hfresh
        · rw [if_neg hc]
          exact hfresh
      exact ih _ htail hnodup.2 hdef
        (by rw [alookup_ainsert_ne _ _ _ _ hs]; exact h1)
        (fun q hq => hslot q (List.mem_cons_of_mem _ hq))

theorem init_eq (cls : ClassState) (kwargs : List (String × Value)) :
    QDataWidget.init cls kwargs =
      { forwarded := (splitKwargs cls.registry kwargs).2,
        store := applyDefaultsAndSlots cls.registry
          (applyInits cls.registry (splitKwargs cls.registry kwargs).1 []).1,
        emissions := (applyInits cls.registry (splitKwargs cls.registry kwargs).1 []).2 } := by
  rfl

theorem filter_keys_nodup (kwargs : List (String × Value))
    (reg : List (String × QDataField)) (h : (kwargs.map Prod.fst).Nodup) :
    ((kwargs.filter fun p => (alookup reg p.1).isSome).map Prod.fst).Nodup :=
  h.sublist (List.Sublist.map Prod.fst (List.filter_sublist kwargs))

theorem init_applyInits_spec (decls : List (String × QDataFieldSpec))
    (kwargs : List (String × Value))
    (hnodup : (decls.map Prod.fst).Nodup)
    (hknodup : (kwargs.map Prod.fst).Nodup) :
    applyInits (makeClass decls).registry
        (kwargs.filter fun p => (alookup (makeClass decls).registry p.1).isSome) [] =
      ((kwargs.filter fun p => (alookup (makeClass decls).registry p.1).isSome),
        (kwargs.filter fun p => (alookup (makeClass decls).registry p.1).isSome).map
          fun p => { signal := p.1 ++ "Changed", value := p.2 }) := by
  have hreg : ∀ p ∈ (kwargs.filter fun p =>
      (alookup (makeClass decls).registry p.1).isSome),
      ∃ f, alookup (makeClass decls).registry p.1 = some f ∧ f.name = p.1 ∧
        f.signal_name = p.1 ++ "Changed" := by
    intro p hp
    have hsome := (List.mem_filter.mp hp).2
    obtain ⟨f, hf⟩ := Option.isSome_iff_exists.mp hsome
    obtain ⟨h1, h2⟩ := registry_names decls p.1 f hnodup hf
    exact ⟨f, hf, h1, h2⟩
  have hfresh : ∀ p ∈ (kwargs.filter fun p =>
      (alookup (makeClass decls).registry p.1).isSome),
      alookup ([] : Store) p.1 = Option.none := fun _ _ => rfl
  have := applyInits_spec (makeClass decls).registry _ [] hreg hfresh
    (filter_keys_nodup kwargs _ hknodup)
  simpa using this

theorem init_emissions (decls : List (String × QDataFieldSpec))
    (kwargs : List (String × Value))
    (hnodup : (decls.map Prod.fst).Nodup)
    (hknodup : (kwargs.map Prod.fst).Nodup) :
    (QDataWidget.init (makeClass decls) kwargs).emissions =
      (kwargs.filter fun p => (alookup (makeClass decls).registry p.1).isSome).map
        fun p => { signal := p.1 ++ "Changed", value := p.2 } := by
  rw [init_eq, splitKwargs_eq]
  simp only
  rw [init_applyInits_spec decls kwargs hnodup hknodup]

theorem init_store (decls : List (String × QDataFieldSpec))
    (kwargs : List (String × Value))
    (hnodup : (decls.map Prod.fst).Nodup)
    (hknodup : (kwargs.map Prod.fst).Nodup) :
    (QDataWidget.init (makeClass decls) kwargs).store =
      applyDefaultsAndSlots (makeClass decls).registry
        (kwargs.filter fun p => (alookup (makeClass decls).registry p.1).isSome) := by
  rw [init_eq, splitKwargs_eq]
  simp only
  rw [init_applyInits_spec decls kwargs hnodup hknodup]

theorem filter_emissions_none (n : String) (reg : List (String × QDataField)) :
    ∀ (kwargs : List (String × Value)), n ∉ kwargs.map Prod.fst →
    ((kwargs.filter fun p => (alookup reg p.1).isSome).map
      (fun p => ({ signal := p.1 ++ "Changed", value := p.2 } : Emission))).filter
      (fun e => e.signal = n ++ "Changed") = [] := by
  intro kwargs
  induction kwargs with
  | nil => intro _; rfl
  | cons p rest ih =>
    intro h
    simp only [List.map_cons, List.mem_cons] at h
    push_neg at h
    have hne : p.1 ≠ n := fun he => h.1 he.symm
    have hsig : ¬ (p.1 ++ "Changed" = n ++ "Changed") :=
      fun he => hne (changed_name_inj p.1 n he)
    by_cases hp : (alookup reg p.1).isSome
    · simpa [List.filter_cons, hp, hsig] using ih h.2
    · simpa [List.filter_cons, hp] using ih h.2

theorem filter_emissions_single (n : String) (v : Value)
    (reg : List (String × QDataField)) :
    ∀ (kwargs : List (String × Value)), (kwargs.map Prod.fst).Nodup →
    (n, v) ∈ kwargs →
    (alookup reg n).isSome →
    ((kwargs.filter fun p => (alookup reg p.1).isSome).map
      (fun p => ({ signal := p.1 ++ "Changed", value := p.2 } : Emission))).filter
      (fun e => e.signal = n ++ "Changed") =
      [{ signal := n ++ "Changed", value := v }] := by
  intro kwargs
  induction kwargs with
  | nil => intro _ hmem _; cases hmem
  | cons p rest ih =>
    intro hknodup hmem hsome
    simp only [List.map_cons, List.nodup_cons] at hknodup
    by_cases hp : p.1 = n
    · have hpv : p = (n, v) := by
        rcases List.mem_cons.mp hmem with hh | ht
        · exact hh.symm
        · exact absurd (hp ▸ List.mem_map_of_mem Prod.fst ht) hknodup.1
      subst hpv
      simp [List.filter_cons, hsome, filter_emissions_none n reg rest hknodup.1]
    · have ht : (n, v) ∈ rest := by
        rcases List.mem_cons.mp hmem with hh | ht
        · exact absurd (congrArg Prod.fst hh.symm) hp
        · exact ht
      by_cases hps : (alookup reg p.1).isSome
      · have hsig : ¬ (p.1 ++ "Changed" = n ++ "Changed") :=
          fun he => hp (changed_name_inj p.1 n he)
        simpa [List.filter_cons, hps, hsig] using ih hknodup.2 ht hsome
      · simpa [List.filter_cons, hps] using ih hknodup.2 ht hsome

theorem emissions_signal_not_mem (n : String) (reg : List (String × QDataField))
    (kwargs : List (String × Value)) (h : n ∉ kwargs.map Prod.fst) :
    ∀ e ∈ (kwargs.filter fun p => (alookup reg p.1).isSome).map
      (fun p => ({ signal := p.1 ++ "Changed", value := p.2 } : Emission)),
      e.signal ≠ n ++ "Changed" := by
  intro e he
  obtain ⟨p, hp, rfl⟩ := List.mem_map.mp he
  have hpk : p ∈ kwargs := (List.mem_filter.mp hp).1
  have hne : p.1 ≠ n := by
    intro heq
    exact h (heq ▸ List.mem_map_of_mem Prod.fst hpk)
  exact fun he2 => hne (changed_name_inj p.1 n he2)

theorem mem_unique_of_keys_nodup {α : Type} (l : List (String × α)) (n : String) (a b : α)
    (ha : (n, a) ∈ l) (hb : (n, b) ∈ l) (h : (l.map Prod.fst).Nodup) : a = b := by
  induction l with
  | nil => cases ha
  | cons p rest ih =>
    simp only [List.map_cons, List.nodup_cons] at h
    rcases List.mem_cons.mp ha with hha | hta
    · rcases List.mem_cons.mp hb with hhb | htb
      · rw [← hha] at hhb
        exact (Prod.mk.injEq _ _ _ _).mp hhb.symm |>.2
      · exfalso
        have hx : n ∈ List.map Prod.fst rest := List.mem_map_of_mem Prod.fst htb
        have hn : n = p.1 := congrArg Prod.fst hha
        rw [hn] at hx
        exact h.1 hx
    · rcases List.mem_cons.mp hb with hhb | htb
      · exfalso
        have hx : n ∈ List.map Prod.fst rest := List.mem_map_of_mem Prod.fst hta
        have hn : n = p.1 := congrArg Prod.fst hhb
        rw [hn] at hx
        exact h.1 hx
      · exact ih hta htb h.2

theorem registry_keys (decls : List (String × QDataFieldSpec))
    (hnodup : (decls.map Prod.fst).Nodup) :
    (makeClass decls).registry.map Prod.fst = decls.map Prod.fst := by
  rw [makeClass_registry decls hnodup, List.map_map]
  rfl

/-- C1: writing a value equal to the currently stored value of the field is a
no-op: the dictionary is unchanged and nothing is emitted. Writing a value
different from the stored one, or writing when no value is stored, replaces
the stored value and emits exactly one notification on the field's change
signal carrying the new value; the emission is part of the write itself
(synchronous, in the calling context of the sequential model). -/
theorem claim1_write_semantics (f : QDataField) (st : Store) (v : Value) :
    (alookup st f.name = some v → f.fset st v = (st, [])) ∧
    (alookup st f.name ≠ some v →
      alookup (f.fset st v).1 f.name = some v ∧
      (f.fset st v).2 = [{ signal := f.signal_name, value := v }]) := by
  constructor
  · exact fun h => fset_stored f st v h
  · intro h
    rw [fset_not_stored f st v h]
    exact ⟨alookup_ainsert_self _ _ _, rfl⟩

theorem claim1_write_semantics_witness :
    (namedField "resistance" { data_type := "float" }).fset
        [("resistance", Value.num 300)] (Value.num 300) =
      ([("resistance", Value.num 300)], []) ∧
    alookup ((namedField "resistance" { data_type := "float" }).fset [] (Value.num 300)).1
        "resistance" = some (Value.num 300) ∧
    ((namedField "resistance" { data_type := "float" }).fset [] (Value.num 300)).2 =
      [{ signal := "resistanceChanged", value := Value.num 300 }] := by
  refine ⟨?_, ?_, ?_⟩
  · exact (claim1_write_semantics (namedField "resistance" { data_type := "float" })
      [("resistance", Value.num 300)] (Value.num 300)).1 (by decide)
  · exact ((claim1_write_semantics (namedField "resistance" { data_type := "float" })
      [] (Value.num 300)).2 (by decide)).1
  · exact ((claim1_write_semantics (namedField "resistance" { data_type := "float" })
      [] (Value.num 300)).2 (by decide)).2

/-- C2: reading a field through the descriptor returns the stored value when
one is present in the instance dictionary, and reading a field of a freshly
constructed instance that received no initializer keyword and declares no
default fails with an uninitialized-access error (`Option.none` models the
`KeyError`). The slot-name side condition rules out a synthesized setter name
shadowing the field's own key in `obj.__dict__`. -/
theorem claim2_read_semantics (decls : List (String × QDataFieldSpec))
    (kwargs : List (String × Value)) (n : String) (spec : QDataFieldSpec)
    (hnodup : (decls.map Prod.fst).Nodup)
    (hknodup : (kwargs.map Prod.fst).Nodup)
    (hmem : (n, spec) ∈ decls)
    (hdef : spec.default_value = Value.none)
    (hkw : n ∉ kwargs.map Prod.fst)
    (hslot : ∀ d ∈ decls, slotName d.1 ≠ n) :
    (∀ (st : Store) (v : Value), alookup st n = some v →
      (namedField n spec).fget st = some v) ∧
    (namedField n spec).fget (QDataWidget.init (makeClass decls) kwargs).store =
      Option.none := by
  constructor
  · intro st v h
    exact h
  · show alookup (QDataWidget.init (makeClass decls) kwargs).store n = Option.none
    rw [init_store decls kwargs hnodup hknodup]
    have hdef' : ∀ p ∈ (makeClass decls).registry,
        p.1 ≠ n ∨ p.2.default_value = Value.none := by
      intro p hp
      rw [makeClass_registry decls hnodup] at hp
      obtain ⟨d, hd, rfl⟩ := List.mem_map.mp hp
      by_cases he : d.1 = n
      · right
        have : d.2 = spec := by
          refine mem_unique_of_keys_nodup decls n d.2 spec ?_ hmem hnodup
          rw [← he]
          exact hd
        rw [show (namedField d.1 d.2).default_value = d.2.default_value from rfl, this, hdef]
      · exact Or.inl he
    have hslot' : ∀ p ∈ (makeClass decls).registry, slotName p.1 ≠ n := by
      intro p hp
      rw [makeClass_registry decls hnodup] at hp
      obtain ⟨d, hd, rfl⟩ := List.mem_map.mp hp
      exact hslot d hd
    rw [ADS_frame n _ _ hdef' hslot']
    apply alookup_eq_none_of_not_mem
    intro hmem'
    obtain ⟨p, hp, hpn⟩ := List.mem_map.mp hmem'
    exact hkw (hpn ▸ List.mem_map_of_mem Prod.fst ((List.filter_sublist kwargs).mem hp))

theorem claim2_read_semantics_witness :
    (namedField "ref" { data_type := "str" }).fget [("ref", Value.str "r1")] =
      some (Value.str "r1") ∧
    (namedField "ref" { data_type := "str" }).fget
      (QDataWidget.init (makeClass resistorDecls) [("resistance", Value.num 300)]).store =
      Option.none := by
  have h := claim2_read_semantics resistorDecls [("resistance", Value.num 300)]
    "ref" { data_type := "str" } (by decide) (by decide) (by decide) rfl
    (by decide) (by decide)
  exact ⟨h.1 [("ref", Value.str "r1")] (Value.str "r1") (by decide), h.2⟩

/-- C3 is false on the code: `QDataWidget.__init__` applies staged
initializers through `__set__` before any default is materialized, so an
initializer keyword whose value equals the declared default still finds the
instance store without that key and emits a change notification. Concretely,
constructing a `Resistor` with `kind = 'metal film'` (equal to the declared
default) emits one `kindChanged` notification during construction. -/
theorem claim3_counterexample :
    (QDataWidget.init resistorClass [("kind", Value.str "metal film")]).emissions =
      [{ signal := "kindChanged", value := Value.str "metal film" }] ∧
    (QDataWidget.init resistorClass [("kind", Value.str "metal film")]).emissions ≠ [] := by
  decide

/-- C3 amended: for every field and every instance, an explicit initializer
keyword for that field — including one whose value equals the declared
default — is applied through the write path before defaults are materialized,
so construction emits exactly one notification on that field's change channel
carrying the initializer value. -/
theorem claim3_initializer_emits (decls : List (String × QDataFieldSpec))
    (kwargs : List (String × Value)) (n : String) (spec : QDataFieldSpec) (v : Value)
    (hnodup : (decls.map Prod.fst).Nodup)
    (hknodup : (kwargs.map Prod.fst).Nodup)
    (hmem : (n, spec) ∈ decls)
    (hkw : (n, v) ∈ kwargs) :
    (QDataWidget.init (makeClass decls) kwargs).emissions.filter
      (fun e => e.signal = n ++ "Changed") =
      [{ signal := n ++ "Changed", value := v }] := by
  rw [init_emissions decls kwargs hnodup hknodup]
  refine filter_emissions_single n v _ kwargs hknodup hkw ?_
  rw [alookup_registry_of_mem decls n spec hnodup hmem]
  rfl

theorem claim3_initializer_emits_witness :
    (QDataWidget.init (makeClass resistorDecls)
      [("kind", Value.str "metal film")]).emissions.filter
      (fun e => e.signal = "kind" ++ "Changed") =
      [{ signal := "kind" ++ "Changed", value := Value.str "metal film" }] :=
  claim3_initializer_emits resistorDecls [("kind", Value.str "metal film")] "kind"
    { data_type := "str", default_value := Value.str "metal film" }
    (Value.str "metal film") (by decide) (by decide) (by decide) (by decide)

/-- C4: a field with a non-`None` declared default and no initializer keyword
gets the default materialized directly into the instance store during
construction: a subsequent read returns the default, and construction emits
nothing on that field's change channel (default application writes the
dictionary directly, bypassing `__set__`). The slot-name side condition rules
out a synthesized setter name shadowing the field's own key. -/
theorem claim4_default_materialization (decls : List (String × QDataFieldSpec))
    (kwargs : List (String × Value)) (n : String) (spec : QDataFieldSpec)
    (hnodup : (decls.map Prod.fst).Nodup)
    (hknodup : (kwargs.map Prod.fst).Nodup)
    (hmem : (n, spec) ∈ decls)
    (hdef : spec.default_value ≠ Value.none)
    (hkw : n ∉ kwargs.map Prod.fst)
    (hslot : ∀ d ∈ decls, slotName d.1 ≠ n) :
    (namedField n spec).fget (QDataWidget.init (makeClass decls) kwargs).store =
      some spec.default_value ∧
    ∀ e ∈ (QDataWidget.init (makeClass decls) kwargs).emissions,
      e.signal ≠ n ++ "Changed" := by
  constructor
  · show alookup (QDataWidget.init (makeClass decls) kwargs).store n = some spec.default_value
    rw [init_store decls kwargs hnodup hknodup]
    have hrmem : (n, namedField n spec) ∈ (makeClass decls).registry := by
      rw [makeClass_registry decls hnodup]
      exact List.mem_map_of_mem _ hmem
    have hrnodup : ((makeClass decls).registry.map Prod.fst).Nodup := by
      rw [registry_keys decls hnodup]
      exact hnodup
    have hslot' : ∀ p ∈ (makeClass decls).registry, slotName p.1 ≠ n := by
      intro p hp
      rw [makeClass_registry decls hnodup] at hp
      obtain ⟨d, hd, rfl⟩ := List.mem_map.mp hp
      exact hslot d hd
    have hfresh : alookup (kwargs.filter fun p =>
        (alookup (makeClass decls).registry p.1).isSome) n = Option.none := by
      apply alookup_eq_none_of_not_mem
      intro hmem'
      obtain ⟨p, hp, hpn⟩ := List.mem_map.mp hmem'
      exact hkw (hpn ▸ List.mem_map_of_mem Prod.fst ((List.filter_sublist kwargs).mem hp))
    exact ADS_default n (namedField n spec) _ _ hrmem hrnodup hdef hfresh hslot'
  · intro e he
    rw [init_emissions decls kwargs hnodup hknodup] at he
    exact emissions_signal_not_mem n _ kwargs hkw e he

theorem claim4_default_materialization_witness :
    (namedField "kind" { data_type := "str", default_value := Value.str "metal film" }).fget
      (QDataWidget.init (makeClass resistorDecls) [("ref", Value.str "r1")]).store =
      some (Value.str "metal film") ∧
    ({ signal := "refChanged", value := Value.str "r1" } : Emission).signal ≠
      "kind" ++ "Changed" := by
  have h := claim4_default_materialization resistorDecls [("ref", Value.str "r1")]
    "kind" { data_type := "str", default_value := Value.str "metal film" }
    (by decide) (by decide) (by decide) (by decide) (by decide) (by decide)
  exact ⟨h.1, h.2 { signal := "refChanged", value := Value.str "r1" } (by decide)⟩

/-- C5: attaching the declared fields of a direct `QDataWidget` subclass
builds that class's own `_fields` registry (created on first attachment) in
declaration order, mapping exactly the declared names to their descriptors,
and installs for each field a signal attribute named by appending the fixed
suffix `Changed` to the field name, typed by the field's declared data type. -/
theorem claim5_registration (decls : List (String × QDataFieldSpec))
    (hnodup : (decls.map Prod.fst).Nodup) :
    (makeClass decls).registry = decls.map (fun d => (d.1, namedField d.1 d.2)) ∧
    (makeClass decls).signals = decls.map (fun d => (d.1 ++ "Changed", d.2.data_type)) :=
  ⟨makeClass_registry decls hnodup, makeClass_signals decls hnodup⟩

theorem claim5_registration_witness :
    (makeClass resistorDecls).registry.map Prod.fst =
      ["ref", "resistance", "tolerance", "kind"] ∧
    (makeClass resistorDecls).signals =
      [("refChanged", "str"), ("resistanceChanged", "float"),
       ("toleranceChanged", "float"), ("kindChanged", "str")] := by
  have h := claim5_registration resistorDecls (by decide)
  constructor
  · rw [h.1]
    decide
  · rw [h.2]
    decide

/-- C6: after construction the instance dictionary holds, for each registered
field, a synthesized setter under `'set' + capitalize(name)` bound to that
field, and invoking the setter (which runs `_set_field`, i.e.
`self._fields[attr_name].__set__`) has exactly the same effect on the store
and on emissions as direct attribute assignment through the field's
descriptor, for every starting store and every value. -/
theorem claim6_setter_equivalence (decls : List (String × QDataFieldSpec))
    (kwargs : List (String × Value)) (n : String) (spec : QDataFieldSpec)
    (hnodup : (decls.map Prod.fst).Nodup)
    (hslots : (decls.map fun d => slotName d.1).Nodup)
    (hmem : (n, spec) ∈ decls) :
    alookup (QDataWidget.init (makeClass decls) kwargs).store (slotName n) =
      some (Value.slot n) ∧
    ∀ (st : Store) (v : Value),
      QDataWidget.set_field (makeClass decls) st v n = directAssign decls st n v := by
  constructor
  · rw [init_eq]
    apply ADS_slot
    · rw [registry_keys decls hnodup]
      exact List.mem_map_of_mem Prod.fst hmem
    · rw [makeClass_registry decls hnodup, List.map_map]
      exact hslots
  · intro st v
    simp only [QDataWidget.set_field, directAssign,
      alookup_registry_of_mem decls n spec hnodup hmem,
      find?_of_mem_nodup decls n spec hnodup hmem]

theorem claim6_setter_equivalence_witness :
    alookup (QDataWidget.init (makeClass resistorDecls) []).store "setResistance" =
      some (Value.slot "resistance") ∧
    QDataWidget.set_field (makeClass resistorDecls) [] (Value.num 7) "resistance" =
      directAssign resistorDecls [] "resistance" (Value.num 7) := by
  have h := claim6_setter_equivalence resistorDecls [] "resistance"
    { data_type := "float" } (by decide) (by decide) (by decide)
  exact ⟨h.1, h.2 [] (Value.num 7)⟩

/-- C7: construction splits the keyword arguments by registry membership:
arguments naming a registered field are removed and staged as field
initializers, in order; all other arguments are forwarded unchanged (same
name, same value, same order) to the widget base construction. -/
theorem claim7_kwarg_partition (cls : ClassState) (kwargs : List (String × Value)) :
    splitKwargs cls.registry kwargs =
      (kwargs.filter (fun p => (alookup cls.registry p.1).isSome),
       kwargs.filter (fun p => !(alookup cls.registry p.1).isSome)) ∧
    (QDataWidget.init cls kwargs).forwarded =
      kwargs.filter (fun p => !(alookup cls.registry p.1).isSome) := by
  refine ⟨splitKwargs_eq _ _, ?_⟩
  rw [init_eq, splitKwargs_eq]

/-- C8: the declared min and max bounds are stored on the field declaration
but never consulted by the write path: the result of a write — both the
resulting store and the emissions — is identical whatever bounds were
declared, including for values outside them. -/
theorem claim8_bounds_ignored (spec : QDataFieldSpec) (mn mx : Value) (n : String)
    (st : Store) (v : Value) :
    (namedField n { spec with min := mn, max := mx }).min = mn ∧
    (namedField n { spec with min := mn, max := mx }).max = mx ∧
    (namedField n { spec with min := mn, max := mx }).fset st v =
      (namedField n spec).fset st v :=
  ⟨rfl, rfl, rfl⟩

/-- C9: `QDataField.__set__` performs the dictionary write strictly before the
signal emission: at every emission step in its trace, the store built from the
preceding steps already maps the field's name to the emitted value, so a
subscriber reading the field from inside its handler observes the new value.
The trace is tied to the write model: running it yields exactly the store and
emissions of `fset`. -/
theorem claim9_store_before_emit (f : QDataField) (st : Store) (v : Value) :
    (runSteps st (f.fsetTrace st v) = (f.fset st v).1 ∧
      emissionsOf (f.fsetTrace st v) = (f.fset st v).2) ∧
    ∀ (i : Nat) (sig : String) (w : Value),
      (f.fsetTrace st v)[i]? = some (SetStep.emit sig w) →
      alookup (runSteps st ((f.fsetTrace st v).take i)) f.name = some w := by
  have hwrite : f.fsetTrace st v =
      [SetStep.write f.name v, SetStep.emit f.signal_name v] ∨
      f.fsetTrace st v = [] := by
    unfold QDataField.fsetTrace
    cases alookup st f.name with
    | none => exact Or.inl rfl
    | some cur =>
      by_cases hv : v = cur
      · simp [hv]
      · simp [hv]
  have hfset : (f.fsetTrace st v = [SetStep.write f.name v, SetStep.emit f.signal_name v] →
      f.fset st v = (ainsert st f.name v, [{ signal := f.signal_name, value := v }])) ∧
      (f.fsetTrace st v = [] → f.fset st v = (st, [])) := by
    unfold QDataField.fsetTrace QDataField.fset
    cases alookup st f.name with
    | none => simp
    | some cur =>
      by_cases hv : v = cur
      · simp [hv]
      · simp [hv]
  rcases hwrite with htr | htr
  · have hf := hfset.1 htr
    rw [htr, hf]
    refine ⟨⟨?_, ?_⟩, ?_⟩
    · simp [runSteps, applyStep]
    · simp [emissionsOf]
    · intro i sig w hi
      match i with
      | 0 => simp at hi
      | 1 =>
        simp at hi
        simp [runSteps, applyStep, alookup_ainsert_self, hi.2]
      | (j + 2) => simp at hi
  · have hf := hfset.2 htr
    rw [htr, hf]
    refine ⟨⟨rfl, rfl⟩, ?_⟩
    intro i sig w hi
    simp at hi

theorem claim9_store_before_emit_witness :
    alookup (runSteps []
      (((namedField "resistance" { data_type := "float" }).fsetTrace []
        (Value.num 300)).take 1)) "resistance" = some (Value.num 300) :=
  (claim9_store_before_emit (namedField "resistance" { data_type := "float" })
    [] (Value.num 300)).2 1 "resistanceChanged" (Value.num 300) (by decide)

/-- C10: the synthesized setter name uses Python's `str.capitalize`, which
uppercases the first character and lowercases the rest; a field named
`maxValue` therefore gets a setter stored under `setMaxvalue`, and nothing is
stored under `setMaxValue`. -/
theorem claim10_capitalize_slot_name :
    pyCapitalize "maxValue" = "Maxvalue" ∧
    slotName "maxValue" = "setMaxvalue" ∧
    alookup (QDataWidget.init camelClass []).store "setMaxvalue" =
      some (Value.slot "maxValue") ∧
    alookup (QDataWidget.init camelClass []).store "setMaxValue" = Option.none := by
  decide
